import Mathlib

/-!
Verification of the goal-resolution and execution engine of the Agent0
repository (`src/agents/google_agent.py`, `src/tools/gmail.py`,
`src/agent/agent.py`, `src/agent/state.py`, `src/agent/memory.py`,
`src/agent/planner.py`, `src/tools/base.py`).

Python strings are embedded as `List Char`; Python `datetime.date` values as
a `Date` structure with explicit calendar arithmetic; Python dicts that cross
the interfaces under scrutiny are embedded as structures carrying exactly the
fields the embedded code reads or writes.  External services (the Gmail and
Calendar HTTP backends, the LLM client, `json.loads`) are parameters of the
embedded functions, mirroring the repository's own boundaries.
-/

/-- Shorthand: Python strings are modelled as lists of characters. -/
abbrev Str : Type := List Char

/-- Converts a Lean string literal to its character list. -/
def S (s : String) : Str := s.toList

/-- ASCII lower-casing of one character, as `str.lower()` acts on the ASCII
range (the only characters the embedded regexes can match). -/
def lowerChar (c : Char) : Char :=
  if 'A' ≤ c ∧ c ≤ 'Z' then Char.ofNat (c.toNat + 32) else c

/-- Python `goal.lower()`. -/
def lowerStr (s : Str) : Str := s.map lowerChar

/-- Python `needle in hay` for strings: some suffix of `hay` starts with
`needle`. -/
def strContains : Str → Str → Bool
  | [], n => n.isPrefixOf []
  | s@(_ :: t), n => n.isPrefixOf s || strContains t n

/-- Word characters of the regex metacharacter `\b` (ASCII `\w`). -/
def isWordChar (c : Char) : Bool :=
  ('a' ≤ c && c ≤ 'z') || ('A' ≤ c && c ≤ 'Z') || ('0' ≤ c && c ≤ '9') || c == '_'

/-- Whitespace characters of the regex metacharacter `\s` (ASCII range). -/
def isSpaceChar (c : Char) : Bool :=
  c == ' ' || c == '\t' || c == '\n' || c == '\r' || c == '\x0b' || c == '\x0c'

/-- Word-ness of an optional character; a string edge counts as non-word. -/
def wordOpt : Option Char → Bool
  | none => false
  | some c => isWordChar c

/-- Leftmost-match driver of `re.search`: try the position matcher `f` on
every suffix from the left and return the first success. -/
def scanFor (f : Str → Option α) : Str → Option α
  | [] => f []
  | c :: t =>
    match f (c :: t) with
    | some a => some a
    | none => scanFor f t

/-- Leftmost-match driver that also tracks the character preceding the
current position, for patterns that begin with `\b`. -/
def scanWithPrev (f : Option Char → Str → Option α) : Option Char → Str → Option α
  | p, [] => f p []
  | p, c :: t =>
    match f p (c :: t) with
    | some a => some a
    | none => scanWithPrev f (some c) t

/-! ## Calendar dates

`datetime` values are embedded as year/month/day triples.  `timedelta`
addition and subtraction step one calendar day at a time; `weekday()`
(Monday = 0) is computed through a day count in the proleptic Gregorian
calendar (days since 0000-03-01, a Wednesday). -/

/-- A calendar date. -/
structure Date where
  year : Nat
  month : Nat
  day : Nat
deriving DecidableEq

/-- Gregorian leap-year rule. -/
def isLeapYear (y : Nat) : Bool :=
  y % 4 == 0 && (y % 100 != 0 || y % 400 == 0)

/-- Number of days of month `m` in year `y`. -/
def daysInMonth (y m : Nat) : Nat :=
  if m = 2 then (if isLeapYear y then 29 else 28)
  else if m = 4 ∨ m = 6 ∨ m = 9 ∨ m = 11 then 30
  else 31

/-- Day count of a date in the proleptic Gregorian calendar (days since
0000-03-01), following the standard civil-calendar formula. -/
def dayNumber (d : Date) : Nat :=
  let y := if d.month ≤ 2 then d.year - 1 else d.year
  let era := y / 400
  let yoe := y % 400
  let mp := (d.month + 9) % 12
  let doy := (153 * mp + 2) / 5 + d.day - 1
  era * 146097 + yoe * 365 + yoe / 4 - yoe / 100 + doy

/-- Python `date.weekday()`: Monday is 0, Sunday is 6. -/
def weekday (d : Date) : Nat := (dayNumber d + 2) % 7

/-- The calendar day after `d`. -/
def nextDay (d : Date) : Date :=
  if d.day < daysInMonth d.year d.month then ⟨d.year, d.month, d.day + 1⟩
  else if d.month < 12 then ⟨d.year, d.month + 1, 1⟩
  else ⟨d.year + 1, 1, 1⟩

/-- The calendar day before `d`. -/
def prevDay (d : Date) : Date :=
  if 1 < d.day then ⟨d.year, d.month, d.day - 1⟩
  else if 1 < d.month then ⟨d.year, d.month - 1, daysInMonth d.year (d.month - 1)⟩
  else ⟨d.year - 1, 12, 31⟩

/-- Python `d + timedelta(days=n)`. -/
def addDays (d : Date) : Nat → Date
  | 0 => d
  | n + 1 => nextDay (addDays d n)

/-- Python `d - timedelta(days=n)`. -/
def subDays (d : Date) : Nat → Date
  | 0 => d
  | n + 1 => prevDay (subDays d n)

/-- Chronological order on dates (lexicographic year, month, day). -/
def dateLe (a b : Date) : Bool :=
  decide (a.year < b.year ∨ (a.year = b.year ∧
    (a.month < b.month ∨ (a.month = b.month ∧ a.day ≤ b.day))))

/-- Decimal digits of a natural number. -/
def natDigits (n : Nat) : Str := Nat.toDigits 10 n

/-- Left-pads a digit string with zeros to width `w`. -/
def padZeros (w : Nat) (s : Str) : Str := List.replicate (w - s.length) '0' ++ s

/-- Python `d.strftime('%Y-%m-%d')`. -/
def dateStr (d : Date) : Str :=
  padZeros 4 (natDigits d.year) ++ '-' :: padZeros 2 (natDigits d.month)
    ++ '-' :: padZeros 2 (natDigits d.day)

/-! ## Regex matchers of `GoogleAgent._extract_parameters`

The three patterns of the regex fallback path are embedded directly:

* `(first|second|third|fourth|fifth|1st|2nd|3rd|4th|5th)\s+week`
* `(january|...|december|jan|feb|mar(?!ch)|apr|may|jun|jul|aug|sep|oct|nov|dec)\b`
* `\b[A-Za-z0-9._%+-]+@[A-Za-z0-9.-]+\.[A-Z|a-z]{2,}\b`

Alternatives are tried in source order at each position and positions from
the left, matching `re.search`/`re.findall` leftmost-match semantics.  In
each pattern a greedy character-class repetition is only ever followed by a
literal outside that class (or, for the email domain, by a literal inside
it, where the engine backtracks to the latest viable split), so greedy
matching with explicit backtracking over split points is faithful. -/

/-- The month alternation, in source order. -/
def monthAltList : List Str :=
  [S "january", S "february", S "march", S "april", S "may", S "june", S "july",
   S "august", S "september", S "october", S "november", S "december",
   S "jan", S "feb", S "mar", S "apr", S "may", S "jun", S "jul", S "aug",
   S "sep", S "oct", S "nov", S "dec"]

/-- The `month_map` dict of `_extract_parameters`. -/
def monthMap : List (Str × Nat) :=
  [(S "january", 1), (S "jan", 1), (S "february", 2), (S "feb", 2),
   (S "march", 3), (S "mar", 3), (S "april", 4), (S "apr", 4), (S "may", 5),
   (S "june", 6), (S "jun", 6), (S "july", 7), (S "jul", 7),
   (S "august", 8), (S "aug", 8), (S "september", 9), (S "sep", 9),
   (S "october", 10), (S "oct", 10), (S "november", 11), (S "nov", 11),
   (S "december", 12), (S "dec", 12)]

/-- Month alternative match at one position: the alternative is a prefix,
the `mar` alternative is not followed by `ch` (the `(?!ch)` lookahead), and
the trailing `\b` holds (the matched text ends at a word/non-word edge;
every alternative ends in a letter, so the next character must be
non-word or the string must end). -/
def matchMonthAt (s : Str) : Option Str :=
  monthAltList.find? fun alt =>
    alt.isPrefixOf s
      && !(alt == S "mar" && (S "ch").isPrefixOf (s.drop 3))
      && !(wordOpt ((s.drop alt.length).head?))

/-- Leftmost month-name match (`month_match.group(1)`). -/
def findMonthStr (s : Str) : Option Str := scanFor matchMonthAt s

/-- The ordinal-week alternation, in source order. -/
def weekAltList : List Str :=
  [S "first", S "second", S "third", S "fourth", S "fifth",
   S "1st", S "2nd", S "3rd", S "4th", S "5th"]

/-- The `week_map` dict of `_extract_parameters`. -/
def weekMap : List (Str × Nat) :=
  [(S "first", 1), (S "1st", 1), (S "1", 1), (S "second", 2), (S "2nd", 2),
   (S "2", 2), (S "third", 3), (S "3rd", 3), (S "3", 3), (S "fourth", 4),
   (S "4th", 4), (S "4", 4), (S "fifth", 5), (S "5th", 5), (S "5", 5)]

/-- The `\s+week` tail of the ordinal-week pattern: at least one whitespace
character, then the literal `week`.  (`\s` cannot start `week`, so greedy
whitespace consumption is exact.) -/
def weekTail (r : Str) : Bool :=
  let ws := r.takeWhile isSpaceChar
  !ws.isEmpty && (S "week").isPrefixOf (r.drop ws.length)

/-- Ordinal-week alternative match at one position. -/
def matchWeekOrdAt (s : Str) : Option Str :=
  weekAltList.find? fun alt => alt.isPrefixOf s && weekTail (s.drop alt.length)

/-- Leftmost ordinal-week match (`week_match.group(1)`). -/
def findWeekStr (s : Str) : Option Str := scanFor matchWeekOrdAt s

/-- Local-part characters of the email pattern: `[A-Za-z0-9._%+-]`. -/
def isLocalChar (c : Char) : Bool :=
  ('a' ≤ c && c ≤ 'z') || ('A' ≤ c && c ≤ 'Z') || ('0' ≤ c && c ≤ '9')
    || c == '.' || c == '_' || c == '%' || c == '+' || c == '-'

/-- Domain characters of the email pattern: `[A-Za-z0-9.-]`. -/
def isDomainChar (c : Char) : Bool :=
  ('a' ≤ c && c ≤ 'z') || ('A' ≤ c && c ≤ 'Z') || ('0' ≤ c && c ≤ '9')
    || c == '.' || c == '-'

/-- Top-level-domain characters of the email pattern: `[A-Z|a-z]` (the
source's character class literally contains `|`). -/
def isTldChar (c : Char) : Bool :=
  ('a' ≤ c && c ≤ 'z') || ('A' ≤ c && c ≤ 'Z') || c == '|'

/-- Matches `[A-Z|a-z]{2,}\b` against `tldSrc`, backtracking the greedy
repetition from the longest run down to length two until the trailing word
boundary holds; returns the matched length. -/
def tldSplit (tldSrc : Str) : Option Nat :=
  let run := tldSrc.takeWhile isTldChar
  (((List.range (run.length + 1)).reverse).filter (fun j => 2 ≤ j)).findSome?
    fun j =>
      if wordOpt (tldSrc.get? (j - 1)) != wordOpt (tldSrc.get? j) then some j
      else none

/-- Email pattern match anchored at the current position, given the
preceding character (for the leading `\b`).  The local and domain
repetitions are greedy; `@` is outside the local class so the local part
never backtracks, while the literal `.` after the domain class is inside
it, so the engine backtracks over the `.` positions of the greedy domain
run, longest domain first. -/
def matchEmailAt (p : Option Char) (s : Str) : Option Str :=
  match s with
  | [] => none
  | c :: _ =>
    if wordOpt p == isWordChar c then none
    else
      let loc := s.takeWhile isLocalChar
      if loc.isEmpty then none
      else
        match s.drop loc.length with
        | '@' :: r2 =>
          let dom := r2.takeWhile isDomainChar
          (((List.range dom.length).reverse).filter
              (fun i => 1 ≤ i && dom.get? i == some '.')).findSome? fun i =>
            let tldSrc := dom.drop (i + 1) ++ r2.drop dom.length
            (tldSplit tldSrc).map fun j =>
              loc ++ '@' :: (dom.take i ++ '.' :: tldSrc.take j)
        | _ => none

/-- Leftmost email-address match (`re.findall(email_pattern, goal)[0]`). -/
def findFirstEmail (s : Str) : Option Str := scanWithPrev matchEmailAt none s

/-! ## Parameter extraction (`GoogleAgent._extract_parameters`, regex path)

The LLM parser branch is an external collaborator; the embedded functions
are the regex fallback, which is the algorithm the specification describes.
`datetime.now()` is passed in as the reference date `today`. -/

/-- Parameters built for the `query_gmail` tool.  The Python dict always
carries a `query` key on this path; the `count_all` key is only set when
the count phrasing is present, which the tool reads with default `False`,
so it is embedded as a `Bool`. -/
structure GmailParams where
  query : Str
  count_all : Bool
deriving DecidableEq

/-- Gmail branch of `_extract_parameters` (google_agent.py lines 235-267):
folder default, then sender override with `in:inbox` re-appended, then
unread qualifiers, then the accurate-count flag. -/
def extractGmailParams (goal : Str) : GmailParams :=
  let gl := lowerStr goal
  let q0 :=
    if strContains gl (S "inbox") then S "in:inbox"
    else if strContains gl (S "sent") then S "in:sent"
    else if strContains gl (S "draft") then S "in:draft"
    else []
  let q1 :=
    match findFirstEmail goal with
    | some email =>
      (S "from:" ++ email) ++ (if strContains gl (S "inbox") then S " in:inbox" else [])
    | none => q0
  let q2 :=
    if strContains gl (S "unread") then
      (if !q1.isEmpty then q1 ++ S " is:unread" else S "is:unread")
        ++ (if strContains gl (S "inbox") then S " in:inbox" else [])
    else q1
  { query := q2,
    count_all := strContains gl (S "how many") || strContains gl (S "count")
      || strContains gl (S "total") }

/-- Year disambiguation of the ordinal-week branch:
`today.year if month_num >= today.month else today.year + 1`. -/
def resolveYear (today : Date) (month_num : Nat) : Nat :=
  if today.month ≤ month_num then today.year else today.year + 1

/-- Date-range inference of the `query_events` branch (google_agent.py
lines 282-351), factored to return the `(time_min, time_max)` dates it
computes, or `none` when the branch sets no time keys (goal mentions
neither `today` nor `week`). -/
def resolveDateRange (goal : Str) (today : Date) : Option (Date × Date) :=
  let gl := lowerStr goal
  if strContains gl (S "today") then
    some (today, addDays today 1)
  else if strContains gl (S "week") then
    match findMonthStr gl, findWeekStr gl with
    | some month_str, some week_str =>
      let month_num := ((monthMap.lookup (lowerStr month_str)).getD today.month)
      let week_num := ((weekMap.lookup (lowerStr week_str)).getD 1)
      let year := resolveYear today month_num
      let first_of_month : Date := ⟨year, month_num, 1⟩
      let dum0 := (7 - weekday first_of_month) % 7
      let days_until_monday :=
        if dum0 = 0 ∧ weekday first_of_month ≠ 0 then 7 else dum0
      let first_monday := addDays first_of_month days_until_monday
      let start_of_week := addDays first_monday (7 * (week_num - 1))
      some (start_of_week, addDays start_of_week 6)
    | _, _ =>
      if strContains gl (S "next") then
        let start_of_week := addDays (subDays today (weekday today)) 7
        some (start_of_week, addDays start_of_week 6)
      else
        let start_of_week := subDays today (weekday today)
        some (start_of_week, addDays start_of_week 6)
  else none

/-- Parameters built for the `query_events` tool. -/
structure CalendarParams where
  calendar_id : Str
  search_text : Option Str
  time_min : Option Str
  time_max : Option Str
deriving DecidableEq

/-- Calendar branch of `_extract_parameters` (google_agent.py lines
270-351): primary calendar, optional `Work` search text, and the inferred
date range rendered with `strftime('%Y-%m-%d')`. -/
def extractCalendarParams (goal : Str) (today : Date) : CalendarParams :=
  let gl := lowerStr goal
  { calendar_id := S "primary",
    search_text := if strContains gl (S "work") then some (S "Work") else none,
    time_min := (resolveDateRange goal today).map (fun r => dateStr r.1),
    time_max := (resolveDateRange goal today).map (fun r => dateStr r.2) }

/-- Specification-side first Monday of a month: the earliest of the first
seven days of the month that is a Monday (offset from day 1). -/
def mondayOffset (y m : Nat) : Nat :=
  (((List.range 7).find? fun k => weekday ⟨y, m, 1 + k⟩ == 0).getD 0)

/-- Specification-side first Monday of a month as a date. -/
def firstMondayOfMonth (y m : Nat) : Date := ⟨y, m, 1 + mondayOffset y m⟩

/-! ## Gmail search results (`QueryGmail.run`, default path)

The Gmail service is external: the embedded function takes the outcome of
the `messages().list` call (the per-message metadata fetches, each of which
may fail and be skipped by the `except: continue`, and the service's
`resultSizeEstimate`) and builds the result dict of gmail.py lines 103-159. -/

/-- Summary of one fetched message; `sender` embeds the dict's `from` key. -/
structure EmailSummary where
  id : Str
  subject : Str
  sender : Str
  date : Str
deriving DecidableEq

/-- Result dict of the default `QueryGmail.run` path. -/
structure GmailQueryResult where
  ok : Bool
  query : Str
  total_results : Nat
  returned : Nat
  summary : Str
  unique_senders : List Str
  discrepancy_warning : Option Str
  emails : List EmailSummary
deriving DecidableEq

/-- Builds the `QueryGmail.run` result from the fetched messages (`none`
entries are messages whose metadata fetch raised and was skipped) and the
service's `resultSizeEstimate` (`total`).  The Python `set` of senders is
embedded as the deduplicated list in first-seen order. -/
def queryGmailSearchResult (query : Str) (fetched : List (Option EmailSummary))
    (total : Nat) : GmailQueryResult :=
  let email_summaries := fetched.filterMap id
  let returned := email_summaries.length
  let summary :=
    (S "Found " ++ natDigits returned ++ S " emails")
      ++ (if returned < total then
            S " (showing " ++ natDigits returned ++ S " of " ++ natDigits total
              ++ S " total matching emails)"
          else S " total")
  let discrepancy_warning :=
    if 0 < returned ∧ returned * 2 < total then
      some (S "Note: API reports " ++ natDigits total ++ S " total results but only "
        ++ natDigits returned
        ++ S " were retrieved. Gmail's API estimate may be inflated. For accurate counts, verify in Gmail's web UI.")
    else none
  { ok := true,
    query := query,
    total_results := total,
    returned := returned,
    summary := summary,
    unique_senders := (email_summaries.map (fun e => e.sender)).eraseDups,
    discrepancy_warning := discrepancy_warning,
    emails := email_summaries }

/-! ## Tool dispatch (`GoogleAgentToolkit.execute`)

A capability is a function from keyword arguments to either a raised
exception (embedded as `Except.error` with the exception text) or a result
value; the registry is an association list populated before a run. -/

/-- Keyword arguments of a tool invocation. -/
abbrev Args : Type := List (Str × Str)

/-- Outcome of `GoogleAgentToolkit.execute`: either the tool's own result
dict, or the `{"ok": False, "error": ...}` failure dict. -/
inductive ExecResult (α : Type) where
  | success (value : α)
  | failure (error : Str)
deriving DecidableEq

/-- Embeds `GoogleAgentToolkit.execute` (google_agent.py lines 49-59): look the
tool up by name; absence yields a not-found failure; an exception raised by
the tool is caught and converted to a prefixed failure message. -/
def toolkitExecute {α : Type} (tools : List (Str × (Args → Except Str α)))
    (tool_name : Str) (args : Args) : ExecResult α :=
  match tools.lookup tool_name with
  | none => .failure (S "Tool '" ++ tool_name ++ S "' not found")
  | some tool =>
    match tool args with
    | .ok result => .success result
    | .error e => .failure (S "Failed to execute " ++ tool_name ++ S ": " ++ e)

/-! ## The agent loop (`run_agent`, `AgentState`, `Memory`)

Tool result dicts are embedded as the fields the loop reads (`done`,
`discrepancy_warning`) plus the dict's string rendering used in memory
entries, and an optional `error` key for the loop's own exception capture. -/

/-- The fields of a tool result dict that `run_agent` reads, plus the
dict's `repr` used when the result is interpolated into a memory entry. -/
structure ToolOutput where
  done : Bool
  discrepancy_warning : Option Str
  error : Option Str
  rendered : Str
deriving DecidableEq

/-- Action proposal returned by a planner (`{"name", "args", "reason"}`). -/
structure Proposal where
  name : Str
  args : Args
  reason : Str
deriving DecidableEq

/-- Embeds `AgentState` (state.py).  The unused `context` dict is omitted; the
loop never reads or writes it. -/
structure AgentState where
  goal : Str
  history : List Str
  results : List (Str × ToolOutput)
  step : Nat
  max_steps : Option Nat
  done : Bool
deriving DecidableEq

/-- Embeds `AgentState.is_complete` (state.py lines 22-27). -/
def is_complete (st : AgentState) : Bool :=
  if st.done then true
  else
    match st.max_steps with
    | some m => decide (m ≤ st.step)
    | none => false

/-- Embeds `Memory.recent`: the last `n` items. -/
def recentItems (mem : List Str) (n : Nat) : List Str := mem.drop (mem.length - n)

/-- Joins memory items with newlines. -/
def joinNl (l : List Str) : Str := (l.intersperse (S "\n")).flatten

/-- Embeds `Memory.build_context` with its default `max_items=10`, as `run_agent`
calls it. -/
def buildContext (mem : List Str) : Str := joinNl (recentItems mem 10)

/-- The `{"error": str(exc)}` dict built when a tool raises inside
`run_agent` (agent.py lines 49-52); it carries no `done`, warning or `ok`
key. -/
def errorOutput (e : Str) : ToolOutput :=
  { done := false,
    discrepancy_warning := none,
    error := some e,
    rendered := S "\x7b'error': '" ++ e ++ S "'\x7d" }

/-- Runs a tool on keyword arguments inside the loop's `try`, converting a
raised exception into the `{"error": ...}` result. -/
def runToolKwargs (tool : Args → Except Str ToolOutput) (args : Args) : ToolOutput :=
  match tool args with
  | .ok r => r
  | .error e => errorOutput e

/-- History line `f"Step {state.step}: planner proposed {name} ({reason})"`. -/
def planLine (step : Nat) (p : Proposal) : Str :=
  S "Step " ++ natDigits step ++ S ": planner proposed " ++ p.name
    ++ S " (" ++ p.reason ++ S ")"

/-- History line `f"No tool named '{name}' registered. Skipping."`. -/
def skipLine (p : Proposal) : Str :=
  S "No tool named '" ++ p.name ++ S "' registered. Skipping."

/-- Memory entry for a recorded result (agent.py lines 57-65): the default
line, or the prominent three-line form when the result carries a
discrepancy warning. -/
def memoryEntry (name : Str) (r : ToolOutput) : Str :=
  match r.discrepancy_warning with
  | some w =>
    S "⚠️⚠️⚠️ IMPORTANT DISCREPANCY ⚠️⚠️⚠️\n" ++ w ++ S "\nTool " ++ name
      ++ S " result: " ++ r.rendered
  | none => S "Tool " ++ name ++ S " result: " ++ r.rendered

/-- One iteration of the `run_agent` while-loop body (agent.py lines
28-69).  The planner is the `plan`/`plan_with_tools` call, already closed
over the tools catalog when tool-aware. -/
def stepOnce (planner : AgentState → Str → Proposal)
    (tools : List (Str × (Args → Except Str ToolOutput)))
    (st : AgentState) (mem : List Str) : AgentState × List Str :=
  let st1 := { st with step := st.step + 1 }
  let p := planner st1 (buildContext mem)
  let st2 := { st1 with history := st1.history ++ [planLine st1.step p] }
  match tools.lookup p.name with
  | none => ({ st2 with history := st2.history ++ [skipLine p] }, mem)
  | some tool =>
    let result := runToolKwargs tool p.args
    let st3 := { st2 with results := st2.results ++ [(p.name, result)] }
    let st4 := if result.done then { st3 with done := true } else st3
    (st4, mem ++ [memoryEntry p.name result])

/-- The proposal obtained inside one loop iteration (after the step
counter is incremented, as in the source). -/
def stepProposal (planner : AgentState → Str → Proposal) (st : AgentState)
    (mem : List Str) : Proposal :=
  planner { st with step := st.step + 1 } (buildContext mem)

/-- The tool result dispatched in one loop iteration, if the proposed tool
is registered (`none` when the iteration skips). -/
def stepResult (planner : AgentState → Str → Proposal)
    (tools : List (Str × (Args → Except Str ToolOutput)))
    (st : AgentState) (mem : List Str) : Option ToolOutput :=
  match tools.lookup (stepProposal planner st mem).name with
  | none => none
  | some tool => some (runToolKwargs tool (stepProposal planner st mem).args)

/-- Embeds `run_agent`: iterate the loop body while `state.is_complete()` is
false.  The loop need not terminate when `max_steps` is `None`, so the
embedding takes explicit fuel and returns `none` when the fuel runs out
before completion. -/
def runAgent (planner : AgentState → Str → Proposal)
    (tools : List (Str × (Args → Except Str ToolOutput))) :
    Nat → AgentState → List Str → Option (AgentState × List Str)
  | 0, st, mem => if is_complete st then some (st, mem) else none
  | f + 1, st, mem =>
    if is_complete st then some (st, mem)
    else
      let out := stepOnce planner tools st mem
      runAgent planner tools f out.1 out.2

/-! ## Planning failure handling (`ClaudePlanner._execute_plan`)

The LLM call and `json.loads` are external collaborators: the embedding
takes the response (or the exception the call raised) and a JSON parser
returning either a parse error or the decoded action object. -/

/-- A decoded JSON action object; each key may be absent. -/
structure ParsedAction where
  name : Option Str
  args : Option Args
  reason : Option Str
deriving DecidableEq

/-- Python `str.strip()` (ASCII whitespace). -/
def stripStr (s : Str) : Str :=
  (((s.dropWhile isSpaceChar).reverse).dropWhile isSpaceChar).reverse

/-- The response clean-up of `_execute_plan`: strip, peel markdown code
fences, strip again. -/
def cleanResponse (resp : Str) : Str :=
  let cleaned := stripStr resp
  let cleaned :=
    if (S "```json").isPrefixOf cleaned then cleaned.drop 7
    else if (S "```").isPrefixOf cleaned then cleaned.drop 3
    else cleaned
  let cleaned :=
    if (S "```").isSuffixOf cleaned then cleaned.take (cleaned.length - 3)
    else cleaned
  stripStr cleaned

/-- Embeds `ClaudePlanner._execute_plan` (planner.py lines 159-207): clean the
response, parse JSON, fill in missing keys; a raised exception or a parse
failure is coerced to a `noop` proposal whose reason explains the
failure. -/
def executePlan (parseJson : Str → Except Str ParsedAction)
    (response : Except Str Str) : Proposal :=
  match response with
  | .error e => { name := S "noop", args := [], reason := S "Planner error: " ++ e }
  | .ok resp =>
    match parseJson (cleanResponse resp) with
    | .error e =>
      { name := S "noop", args := [],
        reason := S "Failed to parse Claude response: " ++ e }
    | .ok action =>
      { name := action.name.getD (S "noop"),
        args := action.args.getD [],
        reason := action.reason.getD (S "Claude response") }

/-- Embeds `NoopTool.run` (base.py lines 19-29): `{"done": True, "message": "No
action taken"}`. -/
def noopToolOutput : ToolOutput :=
  { done := true,
    discrepancy_warning := none,
    error := none,
    rendered := S "\x7b'done': True, 'message': 'No action taken'\x7d" }

/-- Embeds `NoopTool` as a loop capability. -/
def noopTool : Args → Except Str ToolOutput := fun _ => .ok noopToolOutput

/-! ## Helper lemmas -/

theorem strContains_iff (s n : Str) :
    strContains s n = true ↔ ∃ i, n.isPrefixOf (s.drop i) = true := by
  induction s with
  | nil =>
    simp only [strContains, List.drop_nil]
    exact ⟨fun h => ⟨0, h⟩, fun ⟨_, h⟩ => h⟩
  | cons c t ih =>
    simp only [strContains, Bool.or_eq_true, ih]
    constructor
    · rintro (h | ⟨i, hi⟩)
      · exact ⟨0, h⟩
      · exact ⟨i + 1, by simpa using hi⟩
    · rintro ⟨i, hi⟩
      cases i with
      | zero => exact Or.inl (by simpa using hi)
      | succ j => exact Or.inr ⟨j, by simpa using hi⟩

theorem strContains_of_infix {s n : Str} (h : n <:+: s) : strContains s n = true := by
  obtain ⟨pre, suf, rfl⟩ := h
  rw [strContains_iff]
  refine ⟨pre.length, ?_⟩
  rw [List.append_assoc, List.drop_left]
  exact List.isPrefixOf_iff_prefix.mpr (List.prefix_append n suf)

theorem scanFor_eq_some {f : Str → Option α} {s : Str} {a : α}
    (h : scanFor f s = some a) : ∃ i, f (s.drop i) = some a := by
  induction s with
  | nil => exact ⟨0, h⟩
  | cons c t ih =>
    rw [scanFor] at h
    rcases hc : f (c :: t) with _ | b
    · rw [hc] at h
      obtain ⟨i, hi⟩ := ih h
      exact ⟨i + 1, by simpa using hi⟩
    · rw [hc] at h
      exact ⟨0, by simpa [hc] using h⟩

theorem findWeekStr_contains_week {s : Str} {w : Str}
    (h : findWeekStr s = some w) : strContains s (S "week") = true := by
  obtain ⟨i, hi⟩ := scanFor_eq_some h
  have hfind := List.find?_some hi
  simp only [Bool.and_eq_true] at hfind
  obtain ⟨-, htail⟩ := hfind
  unfold weekTail at htail
  simp only [Bool.and_eq_true] at htail
  obtain ⟨-, hp⟩ := htail
  rw [List.drop_drop, List.drop_drop] at hp
  rw [strContains_iff]
  exact ⟨_, hp⟩

theorem lookup_mem_values {α β : Type} [BEq α] [LawfulBEq α] {l : List (α × β)}
    {k : α} {v : β} (h : l.lookup k = some v) : v ∈ l.map Prod.snd := by
  induction l with
  | nil => simp [List.lookup] at h
  | cons a t ih =>
    rw [List.lookup] at h
    by_cases hk : k = a.1
    · subst hk
      rw [beq_self_eq_true] at h
      simp only [Option.some.injEq] at h
      simp [← h]
    · have hne : (k == a.1) = false := beq_eq_false_iff_ne.mpr hk
      rw [hne] at h
      simp [ih h]

theorem monthMap_lookup_range {s : Str} {m : Nat}
    (h : monthMap.lookup s = some m) : 1 ≤ m ∧ m ≤ 12 := by
  have hmem := lookup_mem_values h
  simp [monthMap] at hmem
  omega

theorem dayNumber_day (y m d : Nat) (hd : 1 ≤ d) :
    dayNumber ⟨y, m, d⟩ = dayNumber ⟨y, m, 1⟩ + (d - 1) := by
  simp only [dayNumber]
  generalize (if m ≤ 2 then y - 1 else y) = yy
  generalize (153 * ((m + 9) % 12) + 2) / 5 = b
  omega

theorem weekday_day_add (y m k : Nat) :
    weekday ⟨y, m, 1 + k⟩ = (weekday ⟨y, m, 1⟩ + k) % 7 := by
  unfold weekday
  rw [dayNumber_day y m (1 + k) (by omega)]
  have : dayNumber ⟨y, m, 1⟩ + (1 + k - 1) + 2 = dayNumber ⟨y, m, 1⟩ + 2 + k := by omega
  rw [this, ← Nat.mod_add_mod]

theorem weekday_lt (d : Date) : weekday d < 7 := Nat.mod_lt _ (by omega)

theorem daysInMonth_ge (y m : Nat) : 28 ≤ daysInMonth y m := by
  unfold daysInMonth
  split
  · split <;> omega
  · split <;> omega

theorem addDays_small (y m : Nat) : ∀ k d, d + k ≤ 28 →
    addDays ⟨y, m, d⟩ k = ⟨y, m, d + k⟩ := by
  intro k
  induction k with
  | zero => intro d _; rfl
  | succ j ih =>
    intro d hdk
    rw [addDays, ih d (by omega), nextDay]
    have hlt : d + j < daysInMonth y m := by
      have := daysInMonth_ge y m
      omega
    simp only [hlt, if_pos]
    rw [Nat.add_assoc]

theorem find?_congr_list {α : Type} {p q : α → Bool} :
    ∀ l : List α, (∀ a ∈ l, p a = q a) → l.find? p = l.find? q := by
  intro l
  induction l with
  | nil => intro _; rfl
  | cons a t ih =>
    intro h
    rw [List.find?_cons, List.find?_cons, h a (by simp)]
    split
    · rfl
    · exact ih fun b hb => h b (by simp [hb])

theorem monday_find_range : ∀ w0 < 7,
    (List.range 7).find? (fun k => (w0 + k) % 7 == 0) = some ((7 - w0) % 7) := by
  decide

theorem mondayOffset_eq (y m : Nat) :
    mondayOffset y m = (7 - weekday ⟨y, m, 1⟩) % 7 := by
  unfold mondayOffset
  rw [find?_congr_list (q := fun k => (weekday ⟨y, m, 1⟩ + k) % 7 == 0)
    (List.range 7) (fun k _ => by rw [weekday_day_add])]
  rw [monday_find_range _ (weekday_lt ⟨y, m, 1⟩)]
  rfl

theorem firstMonday_is_code (y m : Nat) :
    addDays ⟨y, m, 1⟩ ((7 - weekday ⟨y, m, 1⟩) % 7) = firstMondayOfMonth y m := by
  rw [firstMondayOfMonth, mondayOffset_eq]
  have : (7 - weekday ⟨y, m, 1⟩) % 7 < 7 := Nat.mod_lt _ (by omega)
  rw [addDays_small y m _ 1 (by omega)]

theorem firstMonday_weekday (y m : Nat) :
    weekday (firstMondayOfMonth y m) = 0 := by
  rw [firstMondayOfMonth, mondayOffset_eq, weekday_day_add]
  have := weekday_lt (⟨y, m, 1⟩ : Date)
  omega

theorem firstMonday_of_monday (y m : Nat) (h : weekday ⟨y, m, 1⟩ = 0) :
    firstMondayOfMonth y m = ⟨y, m, 1⟩ := by
  rw [firstMondayOfMonth, mondayOffset_eq, h]

theorem dateLe_refl (d : Date) : dateLe d d = true := by simp [dateLe]

theorem dateLe_trans {a b c : Date} (h1 : dateLe a b = true)
    (h2 : dateLe b c = true) : dateLe a c = true := by
  simp only [dateLe, decide_eq_true_eq] at *
  omega

theorem dateLe_nextDay (d : Date) : dateLe d (nextDay d) = true := by
  unfold nextDay
  split
  · simp [dateLe]
  · split <;> simp [dateLe]

theorem dateLe_addDays (d : Date) (n : Nat) : dateLe d (addDays d n) = true := by
  induction n with
  | zero => exact dateLe_refl d
  | succ k ih => exact dateLe_trans ih (dateLe_nextDay (addDays d k))

theorem stepOnce_skip {planner : AgentState → Str → Proposal}
    {tools : List (Str × (Args → Except Str ToolOutput))} {st : AgentState}
    {mem : List Str}
    (h : tools.lookup (stepProposal planner st mem).name = none) :
    stepOnce planner tools st mem =
      ({ st with
          step := st.step + 1,
          history := st.history ++ [planLine (st.step + 1) (stepProposal planner st mem),
                                    skipLine (stepProposal planner st mem)] }, mem) := by
  simp only [stepProposal] at h
  simp only [stepOnce, stepProposal, h]
  simp [List.append_assoc]

theorem stepOnce_dispatch {planner : AgentState → Str → Proposal}
    {tools : List (Str × (Args → Except Str ToolOutput))} {st : AgentState}
    {mem : List Str} {tool : Args → Except Str ToolOutput}
    (h : tools.lookup (stepProposal planner st mem).name = some tool) :
    stepOnce planner tools st mem =
      ({ st with
          step := st.step + 1,
          history := st.history ++ [planLine (st.step + 1) (stepProposal planner st mem)],
          results := st.results ++ [((stepProposal planner st mem).name,
            runToolKwargs tool (stepProposal planner st mem).args)],
          done := st.done
            || (runToolKwargs tool (stepProposal planner st mem).args).done },
        mem ++ [memoryEntry (stepProposal planner st mem).name
          (runToolKwargs tool (stepProposal planner st mem).args)]) := by
  simp only [stepProposal] at h
  simp only [stepOnce, stepProposal, h]
  split
  · next hdone => simp [hdone]
  · next hdone => simp [Bool.not_eq_true] at hdone; simp [hdone]

theorem mem_recent_last (mem : List Str) (e : Str) :
    e ∈ recentItems (mem ++ [e]) 10 := by
  unfold recentItems
  rw [List.length_append, List.length_singleton,
    List.drop_append_of_le_length (by omega)]
  simp

theorem infix_joinNl {e : Str} : ∀ {l : List Str}, e ∈ l → e <:+: joinNl l := by
  intro l
  induction l with
  | nil => simp
  | cons a t ih =>
    intro h
    cases t with
    | nil =>
      simp only [List.mem_singleton] at h
      subst h
      simp [joinNl, List.intersperse]
    | cons b t2 =>
      have hjoin : joinNl (a :: b :: t2) = a ++ (S "\n" ++ joinNl (b :: t2)) := by
        simp [joinNl, List.intersperse]
      rcases List.mem_cons.mp h with rfl | hmem
      · rw [hjoin]
        exact (List.prefix_append e _).isInfix
      · rw [hjoin]
        have hsuf : joinNl (b :: t2) <:+ a ++ (S "\n" ++ joinNl (b :: t2)) := by
          rw [← List.append_assoc]
          exact List.suffix_append _ _
        exact (ih hmem).trans hsuf.isInfix

theorem warning_infix_entry {name : Str} {r : ToolOutput} {w : Str}
    (h : r.discrepancy_warning = some w) : w <:+: memoryEntry name r := by
  unfold memoryEntry
  rw [h]
  exact ⟨S "⚠️⚠️⚠️ IMPORTANT DISCREPANCY ⚠️⚠️⚠️\n",
    S "\nTool " ++ name ++ S " result: " ++ r.rendered, by simp [List.append_assoc]⟩

theorem runAgent_exact (planner : AgentState → Str → Proposal)
    (tools : List (Str × (Args → Except Str ToolOutput)))
    (H : ∀ name tool, tools.lookup name = some tool →
      ∀ args r, tool args = Except.ok r → r.done = false) (n : Nat) :
    ∀ (k : Nat) (st : AgentState) (mem : List Str), st.done = false →
      st.max_steps = some n → st.step + k = n →
      (runAgent planner tools k st mem).map (fun out => out.1.step) = some n := by
  intro k
  induction k with
  | zero =>
    intro st mem hdone hms hstep
    have hic : is_complete st = true := by
      simp [is_complete, hdone, hms]
      omega
    simp [runAgent, hic]
    omega
  | succ k ih =>
    intro st mem hdone hms hstep
    have hic : is_complete st = false := by
      simp [is_complete, hdone, hms]
      omega
    simp only [runAgent, hic, Bool.false_eq_true, if_false]
    rcases hlk : tools.lookup (stepProposal planner st mem).name with _ | tool
    · rw [stepOnce_skip hlk]
      exact ih _ _ (by simp [hdone]) (by simp [hms]) (by simp; omega)
    · rw [stepOnce_dispatch hlk]
      have hr : (runToolKwargs tool (stepProposal planner st mem).args).done = false := by
        unfold runToolKwargs
        rcases htool : tool (stepProposal planner st mem).args with e | r
        · simp [errorOutput]
        · exact H _ _ hlk _ _ htool
      exact ih _ _ (by simp [hdone, hr]) (by simp [hms]) (by simp; omega)

theorem is_complete_iff (st : AgentState) :
    is_complete st = true
      ↔ (st.done = true ∨ ∃ ms, st.max_steps = some ms ∧ ms ≤ st.step) := by
  unfold is_complete
  rcases hms : st.max_steps with _ | m <;> cases hd : st.done <;> simp [hd, hms]

theorem stepOnce_max_steps (planner : AgentState → Str → Proposal)
    (tools : List (Str × (Args → Except Str ToolOutput))) (st : AgentState)
    (mem : List Str) :
    (stepOnce planner tools st mem).1.max_steps = st.max_steps := by
  rcases hlk : tools.lookup (stepProposal planner st mem).name with _ | tool
  · rw [stepOnce_skip hlk]
  · rw [stepOnce_dispatch hlk]

theorem stepOnce_step (planner : AgentState → Str → Proposal)
    (tools : List (Str × (Args → Except Str ToolOutput))) (st : AgentState)
    (mem : List Str) :
    (stepOnce planner tools st mem).1.step = st.step + 1 := by
  rcases hlk : tools.lookup (stepProposal planner st mem).name with _ | tool
  · rw [stepOnce_skip hlk]
  · rw [stepOnce_dispatch hlk]

theorem stepOnce_done (planner : AgentState → Str → Proposal)
    (tools : List (Str × (Args → Except Str ToolOutput))) (st : AgentState)
    (mem : List Str) :
    (stepOnce planner tools st mem).1.done
      = (st.done || (match stepResult planner tools st mem with
          | some r => r.done
          | none => false)) := by
  rcases hlk : tools.lookup (stepProposal planner st mem).name with _ | tool
  · rw [stepOnce_skip hlk]
    simp [stepResult, hlk]
  · rw [stepOnce_dispatch hlk]
    simp [stepResult, hlk]

/-! ## Claims -/

/-- C1 (amended): for every goal whose lowered text does not contain
`today`, on which the month regex finds a month name mapping to month `m`
and the ordinal-week regex finds an ordinal (immediately preceding `week`,
as the pattern requires) mapping to `w`, the resolved range starts on the
first Monday of the resolved month/year plus `(w-1)*7` days and ends
exactly 6 days later; the first Monday is a Monday, and when day 1 of the
month is itself a Monday it is the first Monday (no week is skipped). -/
theorem c1_ordinal_week_range (goal : Str) (today : Date) (ms ws : Str) (m w : Nat)
    (hm : findMonthStr (lowerStr goal) = some ms)
    (hw : findWeekStr (lowerStr goal) = some ws)
    (hlm : monthMap.lookup (lowerStr ms) = some m)
    (hlw : weekMap.lookup (lowerStr ws) = some w)
    (ht : strContains (lowerStr goal) (S "today") = false) :
    resolveDateRange goal today =
      some (addDays (firstMondayOfMonth (resolveYear today m) m) (7 * (w - 1)),
        addDays (addDays (firstMondayOfMonth (resolveYear today m) m) (7 * (w - 1))) 6)
    ∧ weekday (firstMondayOfMonth (resolveYear today m) m) = 0
    ∧ (weekday ⟨resolveYear today m, m, 1⟩ = 0 →
        firstMondayOfMonth (resolveYear today m) m = ⟨resolveYear today m, m, 1⟩) := by
  have hweek := findWeekStr_contains_week hw
  refine ⟨?_, firstMonday_weekday _ _, firstMonday_of_monday _ _⟩
  simp only [resolveDateRange, ht, hweek, hm, hw, hlm, hlw, Option.getD_some,
    Bool.false_eq_true, if_false, if_true]
  have hcond : ¬((7 - weekday ⟨resolveYear today m, m, 1⟩) % 7 = 0
      ∧ weekday ⟨resolveYear today m, m, 1⟩ ≠ 0) := by
    have := weekday_lt (⟨resolveYear today m, m, 1⟩ : Date)
    omega
  rw [if_neg hcond, firstMonday_is_code (resolveYear today m) m]

/-- C1 counterexample to the claim as stated: this goal contains a month
name and an ordinal week reference before `week`, yet because it also
contains `today` the resolver returns the today/tomorrow range, whose
start is not the first Monday of January 2025 plus 14 days. -/
theorem c1_counterexample :
    findMonthStr (lowerStr (S "today, what events are in the third week of january?"))
      = some (S "january")
    ∧ findWeekStr (lowerStr (S "today, what events are in the third week of january?"))
      = some (S "third")
    ∧ resolveDateRange (S "today, what events are in the third week of january?")
        ⟨2024, 12, 15⟩ = some (⟨2024, 12, 15⟩, ⟨2024, 12, 16⟩)
    ∧ addDays (firstMondayOfMonth 2025 1) 14 = ⟨2025, 1, 20⟩
    ∧ (⟨2024, 12, 15⟩ : Date) ≠ ⟨2025, 1, 20⟩ := by decide

/-- C1 witness: the spec's own scenario, goal about the third week of
January with reference date 2024-12-15, resolved through the theorem, and
its rendered parameters 2025-01-20 / 2025-01-26. -/
theorem c1_witness :
    (resolveDateRange (S "What events are in the third week of January?") ⟨2024, 12, 15⟩
        = some (addDays (firstMondayOfMonth (resolveYear ⟨2024, 12, 15⟩ 1) 1) (7 * (3 - 1)),
            addDays (addDays (firstMondayOfMonth (resolveYear ⟨2024, 12, 15⟩ 1) 1)
              (7 * (3 - 1))) 6)
      ∧ weekday (firstMondayOfMonth (resolveYear ⟨2024, 12, 15⟩ 1) 1) = 0
      ∧ (weekday ⟨resolveYear ⟨2024, 12, 15⟩ 1, 1, 1⟩ = 0 →
          firstMondayOfMonth (resolveYear ⟨2024, 12, 15⟩ 1) 1
            = ⟨resolveYear ⟨2024, 12, 15⟩ 1, 1, 1⟩))
    ∧ (extractCalendarParams (S "What events are in the third week of January?")
        ⟨2024, 12, 15⟩).time_min = some (S "2025-01-20")
    ∧ (extractCalendarParams (S "What events are in the third week of January?")
        ⟨2024, 12, 15⟩).time_max = some (S "2025-01-26") :=
  ⟨c1_ordinal_week_range (S "What events are in the third week of January?")
      ⟨2024, 12, 15⟩ (S "january") (S "third") 1 3
      (by decide) (by decide) (by decide) (by decide) (by decide),
    by decide, by decide⟩

/-- C2 (amended): date-range resolution is a total function; when the goal
mentions neither `today` nor `week` it emits no time range at all (the tool
is called without time bounds) rather than falling back to the current
week; and every range it does produce satisfies start ≤ end. -/
theorem c2_range_invariant (goal : Str) (today : Date) :
    ((strContains (lowerStr goal) (S "today") = false
        ∧ strContains (lowerStr goal) (S "week") = false) →
      resolveDateRange goal today = none)
    ∧ (∀ s e, resolveDateRange goal today = some (s, e) → dateLe s e = true) := by
  constructor
  · rintro ⟨ht, hw⟩
    simp [resolveDateRange, ht, hw]
  · intro s e h
    simp only [resolveDateRange] at h
    split at h
    · simp only [Option.some.injEq, Prod.mk.injEq] at h
      obtain ⟨rfl, rfl⟩ := h
      exact dateLe_addDays _ 1
    · split at h
      · split at h
        · simp only [Option.some.injEq, Prod.mk.injEq] at h
          obtain ⟨rfl, rfl⟩ := h
          exact dateLe_addDays _ 6
        · split at h
          · simp only [Option.some.injEq, Prod.mk.injEq] at h
            obtain ⟨rfl, rfl⟩ := h
            exact dateLe_addDays _ 6
          · simp only [Option.some.injEq, Prod.mk.injEq] at h
            obtain ⟨rfl, rfl⟩ := h
            exact dateLe_addDays _ 6
      · exact absurd h (by simp)

/-- C2 counterexample to the claim as stated: a calendar goal with no
temporal expression resolves to no time range at all (`time_min` and
`time_max` stay unset), not to the current week's Monday–Sunday range. -/
theorem c2_counterexample :
    strContains (lowerStr (S "list my events")) (S "today") = false
    ∧ strContains (lowerStr (S "list my events")) (S "week") = false
    ∧ extractCalendarParams (S "list my events") ⟨2024, 12, 15⟩
        = ⟨S "primary", none, none, none⟩
    ∧ (extractCalendarParams (S "list my events") ⟨2024, 12, 15⟩).time_min
        ≠ some (dateStr (subDays ⟨2024, 12, 15⟩ (weekday ⟨2024, 12, 15⟩))) := by
  decide

/-- C2 witness: no time range for a goal with no temporal expression; and
start ≤ end on the range produced for a plain `week` goal (reference date
2024-12-15, a Sunday, whose week runs 2024-12-09 to 2024-12-15). -/
theorem c2_witness :
    resolveDateRange (S "list my events") ⟨2024, 12, 15⟩ = none
    ∧ dateLe ⟨2024, 12, 9⟩ ⟨2024, 12, 15⟩ = true :=
  ⟨(c2_range_invariant (S "list my events") ⟨2024, 12, 15⟩).1 ⟨by decide, by decide⟩,
    (c2_range_invariant (S "what is on this week") ⟨2024, 12, 15⟩).2
      ⟨2024, 12, 9⟩ ⟨2024, 12, 15⟩ (by decide)⟩

/-- C3: the Gmail query result carries a discrepancy warning exactly when
some items were returned and the service estimate exceeds twice the
returned count; the check only annotates — `ok` is `True` and the query,
estimate, returned count and summaries are what the service data dictate,
independent of the warning condition. -/
theorem c3_discrepancy_iff (query : Str) (fetched : List (Option EmailSummary))
    (total : Nat) :
    ((queryGmailSearchResult query fetched total).discrepancy_warning ≠ none
      ↔ 0 < (queryGmailSearchResult query fetched total).returned
        ∧ 2 * (queryGmailSearchResult query fetched total).returned < total)
    ∧ (queryGmailSearchResult query fetched total).ok = true
    ∧ (queryGmailSearchResult query fetched total).query = query
    ∧ (queryGmailSearchResult query fetched total).total_results = total
    ∧ (queryGmailSearchResult query fetched total).returned
        = (fetched.filterMap id).length
    ∧ (queryGmailSearchResult query fetched total).emails = fetched.filterMap id := by
  simp only [queryGmailSearchResult]
  refine ⟨?_, trivial, trivial, trivial, trivial, trivial⟩
  split
  · next hc => simp; omega
  · next hc => simp; omega

/-- C4: with `step = 0` and `max_steps = n` set on a fresh state, and a
tool catalog whose results never signal completion, the loop terminates
with fuel `n` and the final step count is exactly `n`. -/
theorem c4_loop_bound (planner : AgentState → Str → Proposal)
    (tools : List (Str × (Args → Except Str ToolOutput)))
    (goal : Str) (hist : List Str) (res : List (Str × ToolOutput))
    (mem : List Str) (n : Nat)
    (H : ∀ name tool, tools.lookup name = some tool →
      ∀ args r, tool args = Except.ok r → r.done = false) :
    (runAgent planner tools n ⟨goal, hist, res, 0, some n, false⟩ mem).map
      (fun out => out.1.step) = some n :=
  runAgent_exact planner tools H n n ⟨goal, hist, res, 0, some n, false⟩ mem
    rfl rfl (by simp)

/-- C4 witness: `maxSteps = 3` with a planner always proposing a
non-completing action runs exactly 3 iterations then stops. -/
theorem c4_witness :
    (runAgent (fun _ _ => ⟨S "describe_state", [], S "default summarization"⟩) [] 3
        ⟨S "g", [], [], 0, some 3, false⟩ []).map (fun out => out.1.step) = some 3 :=
  c4_loop_bound _ _ _ _ _ _ 3 (by intro name tool h; simp [List.lookup] at h)

/-- C5: completion holds exactly when the state is done or the step count
has reached a set `max_steps`; one iteration increments the step count by
one; the done flag after an iteration is the previous flag or-ed with the
dispatched result's done signal — so it is set exactly by an explicit
completion signal, and never reverts; completion is absorbing across an
iteration; and an iteration whose result carries the done signal still
records the result and the memory entry before the next loop check. -/
theorem c5_termination_invariant (planner : AgentState → Str → Proposal)
    (tools : List (Str × (Args → Except Str ToolOutput))) (st : AgentState)
    (mem : List Str) :
    (is_complete st = true
      ↔ (st.done = true ∨ ∃ ms, st.max_steps = some ms ∧ ms ≤ st.step))
    ∧ (stepOnce planner tools st mem).1.step = st.step + 1
    ∧ ((stepOnce planner tools st mem).1.done
        = (st.done || (match stepResult planner tools st mem with
            | some r => r.done
            | none => false)))
    ∧ (is_complete st = true → is_complete (stepOnce planner tools st mem).1 = true)
    ∧ (∀ r, stepResult planner tools st mem = some r →
        (stepOnce planner tools st mem).1.results
          = st.results ++ [((stepProposal planner st mem).name, r)]
        ∧ (stepOnce planner tools st mem).2
          = mem ++ [memoryEntry (stepProposal planner st mem).name r]) := by
  refine ⟨is_complete_iff st, stepOnce_step planner tools st mem,
    stepOnce_done planner tools st mem, ?_, ?_⟩
  · intro h
    rw [is_complete_iff] at h ⊢
    rcases h with h | ⟨ms, hms, hle⟩
    · left
      rw [stepOnce_done, h]
      simp
    · right
      exact ⟨ms, by rw [stepOnce_max_steps]; exact hms,
        by rw [stepOnce_step]; omega⟩
  · intro r hres
    unfold stepResult at hres
    rcases hlk : tools.lookup (stepProposal planner st mem).name with _ | tool
    · rw [hlk] at hres
      exact absurd hres (by simp)
    · rw [hlk] at hres
      simp only [Option.some.injEq] at hres
      subst hres
      rw [stepOnce_dispatch hlk]
      exact ⟨rfl, rfl⟩

/-- C5 witness: a concrete dispatched result carrying the done signal is
recorded in results and memory, and the done flag is set from it. -/
theorem c5_witness :
    (stepOnce (fun _ _ => ⟨S "t", [], S "r"⟩) [(S "t", noopTool)]
        ⟨S "g", [], [], 0, some 5, false⟩ []).1.results
      = [(S "t", noopToolOutput)]
    ∧ (stepOnce (fun _ _ => ⟨S "t", [], S "r"⟩) [(S "t", noopTool)]
        ⟨S "g", [], [], 0, some 5, false⟩ []).2
      = [memoryEntry (S "t") noopToolOutput] := by
  have h := (c5_termination_invariant (fun _ _ => ⟨S "t", [], S "r"⟩)
    [(S "t", noopTool)] ⟨S "g", [], [], 0, some 5, false⟩ []).2.2.2.2
    noopToolOutput (by decide)
  exact ⟨by simpa using h.1, by simpa using h.2⟩

/-- C6: dispatching an unregistered tool identifier never raises — the
toolkit returns a failure whose message says the tool was not found — and
the agent loop logs the miss and moves on: results, memory and done flag
are unchanged and no result with a success flag is appended. -/
theorem c6_unregistered_tool (reg : List (Str × (Args → Except Str ToolOutput)))
    (name : Str) (args : Args) (planner : AgentState → Str → Proposal)
    (tools : List (Str × (Args → Except Str ToolOutput))) (st : AgentState)
    (mem : List Str)
    (hreg : reg.lookup name = none)
    (hloop : tools.lookup (stepProposal planner st mem).name = none) :
    toolkitExecute reg name args
      = ExecResult.failure (S "Tool '" ++ name ++ S "' not found")
    ∧ (stepOnce planner tools st mem).1.results = st.results
    ∧ (stepOnce planner tools st mem).1.done = st.done
    ∧ (stepOnce planner tools st mem).2 = mem
    ∧ (stepOnce planner tools st mem).1.history
        = st.history ++ [planLine (st.step + 1) (stepProposal planner st mem),
            skipLine (stepProposal planner st mem)] := by
  constructor
  · simp [toolkitExecute, hreg]
  · rw [stepOnce_skip hloop]
    exact ⟨rfl, rfl, rfl, rfl⟩

/-- C6 witness: a concrete unregistered name produces the not-found
failure and leaves the loop state's results untouched. -/
theorem c6_witness :
    toolkitExecute ([] : List (Str × (Args → Except Str ToolOutput)))
      (S "mystery") [] = ExecResult.failure (S "Tool 'mystery' not found")
    ∧ (stepOnce (fun _ _ => ⟨S "mystery", [], S "r"⟩) []
        ⟨S "g", [], [], 0, some 5, false⟩ []).1.results = [] := by
  have h := c6_unregistered_tool [] (S "mystery") []
    (fun _ _ => ⟨S "mystery", [], S "r"⟩) [] ⟨S "g", [], [], 0, some 5, false⟩ []
    rfl rfl
  exact ⟨h.1.trans (by decide), by simpa using h.2.1⟩

/-- C7 (amended): a planning exception or an unparseable planning response
is coerced to a `noop` proposal with an explanatory rationale, and the loop
completes the step without fault: when no tool named `noop` is registered
the iteration skips and continues (results, memory and done flag
unchanged); when the standard `NoopTool` is registered, the step completes
and is recorded but its result carries the done signal, so the loop then
terminates at the next check rather than continuing. -/
theorem c7_planning_failure (parseJson : Str → Except Str ParsedAction)
    (e resp : Str) (planner : AgentState → Str → Proposal)
    (tools : List (Str × (Args → Except Str ToolOutput))) (st : AgentState)
    (mem : List Str) :
    executePlan parseJson (Except.error e)
      = ⟨S "noop", [], S "Planner error: " ++ e⟩
    ∧ (∀ e2, parseJson (cleanResponse resp) = Except.error e2 →
        executePlan parseJson (Except.ok resp)
          = ⟨S "noop", [], S "Failed to parse Claude response: " ++ e2⟩)
    ∧ ((stepProposal planner st mem).name = S "noop" →
        (tools.lookup (S "noop") = none →
          (stepOnce planner tools st mem).1.done = st.done
          ∧ (stepOnce planner tools st mem).1.results = st.results
          ∧ (stepOnce planner tools st mem).2 = mem)
        ∧ (tools.lookup (S "noop") = some noopTool →
          (stepOnce planner tools st mem).1.done = true
          ∧ (stepOnce planner tools st mem).1.results
            = st.results ++ [((stepProposal planner st mem).name, noopToolOutput)])) := by
  refine ⟨rfl, ?_, ?_⟩
  · intro e2 h2
    simp [executePlan, h2]
  · intro hname
    constructor
    · intro hnone
      rw [stepOnce_skip (by rw [hname]; exact hnone)]
      exact ⟨rfl, rfl, rfl⟩
    · intro hsome
      rw [stepOnce_dispatch (by rw [hname]; exact hsome)]
      refine ⟨?_, ?_⟩
      · simp [runToolKwargs, noopTool, noopToolOutput]
      · simp [runToolKwargs, noopTool]

/-- C7 counterexample to the claim as stated: with the standard `NoopTool`
registered (as the example runner registers it), a planning failure leads
to a dispatched noop whose result signals done, so the loop terminates at
the next check instead of continuing to the next step. -/
theorem c7_counterexample :
    (executePlan (fun _ => Except.error (S "bad")) (Except.ok (S "not json"))).name
      = S "noop"
    ∧ (stepOnce
        (fun _ _ => executePlan (fun _ => Except.error (S "bad"))
          (Except.ok (S "not json")))
        [(S "noop", noopTool)] ⟨S "g", [], [], 0, some 50, false⟩ []).1.done = true
    ∧ is_complete (stepOnce
        (fun _ _ => executePlan (fun _ => Except.error (S "bad"))
          (Except.ok (S "not json")))
        [(S "noop", noopTool)] ⟨S "g", [], [], 0, some 50, false⟩ []).1 = true := by
  decide

/-- C7 witness: a planning exception yields the noop proposal with its
rationale, and with no `noop` tool registered the loop iteration leaves
results, memory and done flag unchanged. -/
theorem c7_witness :
    executePlan (fun _ => Except.error (S "boom")) (Except.error (S "down"))
      = ⟨S "noop", [], S "Planner error: " ++ S "down"⟩
    ∧ (stepOnce (fun _ _ => ⟨S "noop", [], S "r"⟩) []
        ⟨S "g", [], [], 0, some 5, false⟩ []).1.done = false := by
  have h := c7_planning_failure (fun _ => Except.error (S "boom")) (S "down")
    (S "x") (fun _ _ => ⟨S "noop", [], S "r"⟩) [] ⟨S "g", [], [], 0, some 5, false⟩ []
  exact ⟨h.1, by simpa using (h.2.2 (by decide) |>.1 rfl).1⟩

/-- C8 (amended): a dispatched result carrying a discrepancy warning has
the warning text physically present in the memory context built for the
next planning call (inside the high-salience entry), and the flagged
result is appended to the state's results; the history list itself only
records the proposal line. -/
theorem c8_warning_salience (planner : AgentState → Str → Proposal)
    (tools : List (Str × (Args → Except Str ToolOutput))) (st : AgentState)
    (mem : List Str) (r : ToolOutput) (w : Str)
    (hres : stepResult planner tools st mem = some r)
    (hwarn : r.discrepancy_warning = some w) :
    strContains (buildContext (stepOnce planner tools st mem).2) w = true
    ∧ ((stepProposal planner st mem).name, r)
        ∈ (stepOnce planner tools st mem).1.results := by
  unfold stepResult at hres
  rcases hlk : tools.lookup (stepProposal planner st mem).name with _ | tool
  · rw [hlk] at hres
    exact absurd hres (by simp)
  · rw [hlk] at hres
    simp only [Option.some.injEq] at hres
    subst hres
    rw [stepOnce_dispatch hlk]
    constructor
    · unfold buildContext
      apply strContains_of_infix
      exact (warning_infix_entry hwarn).trans (infix_joinNl (mem_recent_last _ _))
    · simp

/-- C8 counterexample to the claim as stated: a flagged result is recorded
in `results` and its warning reaches the memory context, but the state's
`history` list holds only the proposal line — the warning text appears
nowhere in it. -/
theorem c8_counterexample :
    (stepOnce (fun _ _ => ⟨S "g", [], S "r"⟩)
        [(S "g", fun _ => Except.ok ⟨false, some (S "WARNMARK"), none, S "res"⟩)]
        ⟨S "goal", [], [], 0, some 5, false⟩ []).1.history
      = [S "Step 1: planner proposed g (r)"]
    ∧ strContains (joinNl (stepOnce (fun _ _ => ⟨S "g", [], S "r"⟩)
        [(S "g", fun _ => Except.ok ⟨false, some (S "WARNMARK"), none, S "res"⟩)]
        ⟨S "goal", [], [], 0, some 5, false⟩ []).1.history) (S "WARNMARK") = false
    ∧ (stepOnce (fun _ _ => ⟨S "g", [], S "r"⟩)
        [(S "g", fun _ => Except.ok ⟨false, some (S "WARNMARK"), none, S "res"⟩)]
        ⟨S "goal", [], [], 0, some 5, false⟩ []).1.results
      = [(S "g", ⟨false, some (S "WARNMARK"), none, S "res"⟩)]
    ∧ strContains (buildContext (stepOnce (fun _ _ => ⟨S "g", [], S "r"⟩)
        [(S "g", fun _ => Except.ok ⟨false, some (S "WARNMARK"), none, S "res"⟩)]
        ⟨S "goal", [], [], 0, some 5, false⟩ []).2) (S "WARNMARK") = true := by
  decide

/-- C8 witness: the theorem applied to a concrete flagged dispatch. -/
theorem c8_witness :
    strContains (buildContext (stepOnce (fun _ _ => ⟨S "t", [], S "why"⟩)
        [(S "t", fun _ => Except.ok ⟨false, some (S "ALERT"), none, S "res"⟩)]
        ⟨S "goal", [], [], 0, some 5, false⟩ []).2) (S "ALERT") = true
    ∧ ((stepProposal (fun _ _ => ⟨S "t", [], S "why"⟩)
          ⟨S "goal", [], [], 0, some 5, false⟩ []).name,
        (⟨false, some (S "ALERT"), none, S "res"⟩ : ToolOutput))
        ∈ (stepOnce (fun _ _ => ⟨S "t", [], S "why"⟩)
          [(S "t", fun _ => Except.ok ⟨false, some (S "ALERT"), none, S "res"⟩)]
          ⟨S "goal", [], [], 0, some 5, false⟩ []).1.results :=
  c8_warning_salience _ _ _ _ ⟨false, some (S "ALERT"), none, S "res"⟩ (S "ALERT")
    (by decide) (by decide)

/-- C9 (amended): every failure result produced by the toolkit dispatcher
carries a non-empty error message (the not-found and exception messages
are both prefixed); the agent loop's own exception capture stores the raw
exception text, which is empty when the exception has no message. -/
theorem c9_failure_messages (reg : List (Str × (Args → Except Str ToolOutput)))
    (name : Str) (args : Args) :
    ∀ e, toolkitExecute reg name args = ExecResult.failure e → 0 < e.length := by
  intro e h
  rcases hlk : reg.lookup name with _ | tool
  · simp only [toolkitExecute, hlk, ExecResult.failure.injEq] at h
    subst h
    have h1 : 0 < (S "' not found").length := by decide
    rw [List.length_append]
    omega
  · simp only [toolkitExecute, hlk] at h
    rcases htool : tool args with e2 | v
    · simp only [htool, ExecResult.failure.injEq] at h
      subst h
      have h2 : 0 < (S ": ").length := by decide
      rw [List.length_append, List.length_append]
      omega
    · simp [htool] at h

/-- C9 counterexample to the claim as stated: a capability that raises an
exception with empty text inside `run_agent` is captured as a result whose
`error` value is the empty string — the captured error text is empty. -/
theorem c9_counterexample :
    (stepOnce (fun _ _ => ⟨S "t", [], S "r"⟩)
        [(S "t", fun _ => (Except.error [] : Except Str ToolOutput))]
        ⟨S "g", [], [], 0, some 5, false⟩ []).1.results
      = [(S "t", errorOutput [])]
    ∧ (errorOutput []).error = some []
    ∧ ([] : Str).length = 0 := by
  decide

/-- C9 witness: a concrete not-found dispatch has a non-empty message. -/
theorem c9_witness : 0 < (S "Tool 'x' not found").length :=
  c9_failure_messages [] (S "x") [] (S "Tool 'x' not found") (by decide)

/-- C10 (amended): when the email regex detects a sender address, the
query is rebuilt as `from:<address>`, discarding any `in:sent`/`in:draft`
folder default; the `in:inbox` qualifier and the unread qualifier are
still appended (with `in:inbox` appended a second time when the unread
qualifier also fires); and count phrasing (`how many`/`count`/`total`)
sets the accurate-count flag. -/
theorem c10_sender_query (goal : Str) (em : Str)
    (h : findFirstEmail goal = some em) :
    extractGmailParams goal =
      ⟨S "from:" ++ em
        ++ (if strContains (lowerStr goal) (S "inbox") then S " in:inbox" else [])
        ++ (if strContains (lowerStr goal) (S "unread") then
              S " is:unread"
                ++ (if strContains (lowerStr goal) (S "inbox") then S " in:inbox" else [])
            else []),
        strContains (lowerStr goal) (S "how many")
          || strContains (lowerStr goal) (S "count")
          || strContains (lowerStr goal) (S "total")⟩ := by
  have hf : ¬(S "from:" = []) := by decide
  cases hin : strContains (lowerStr goal) (S "inbox") <;>
    cases hun : strContains (lowerStr goal) (S "unread") <;>
      simp [extractGmailParams, h, hin, hun, hf, List.append_assoc]

/-- C10 counterexample to the claim as stated: with a `sent` folder goal
and a detected sender, the `in:sent` qualifier is dropped from the rebuilt
query, so folder qualifiers are not in general still appended. -/
theorem c10_counterexample :
    strContains (lowerStr (S "show sent emails from alice@example.com"))
      (S "sent") = true
    ∧ findFirstEmail (S "show sent emails from alice@example.com")
      = some (S "alice@example.com")
    ∧ extractGmailParams (S "show sent emails from alice@example.com")
      = ⟨S "from:alice@example.com", false⟩
    ∧ strContains (S "from:alice@example.com") (S "in:sent") = false := by
  decide

/-- C10 witness: the spec's example goal resolves to
`from:alice@example.com is:unread` with the accurate-count flag set. -/
theorem c10_witness :
    extractGmailParams (S "how many unread emails from alice@example.com")
      = ⟨S "from:alice@example.com is:unread", true⟩ :=
  (c10_sender_query (S "how many unread emails from alice@example.com")
    (S "alice@example.com") (by decide)).trans (by decide)
